import Mathlib

/-!
Verification of the header-to-span-attribute extraction policy of
node-custom-span-attributes.

The repository configures the OpenTelemetry Node.js HTTP instrumentation
through the `headersToSpanAttributes` literal in
`custom-instro/nodejs/register.js`; the extraction algorithm itself lives
in the vendor SDK and is not part of the repository's sources, so the
extractor, the policy type and their operations below are modelled from
the specification's description (HeaderPolicy, AttributeExtractor).  The
shipped configuration literal is embedded verbatim from `register.js`.
-/

namespace HeaderAttr

/-- Modelled from the spec: traffic role — whether the instrumented process
is serving (`server`) or initiating (`client`) the observed HTTP traffic. -/
inductive Role
  | server
  | client
deriving DecidableEq

/-- Modelled from the spec: which side of the HTTP transaction the header
collection belongs to. -/
inductive Direction
  | request
  | response
deriving DecidableEq

/-- Modelled from the spec: the string rendering of a direction, used in
attribute names (`request` or `response`). -/
def Direction.str : Direction → String
  | .request => "request"
  | .response => "response"

/-- One role's configuration block: the header-name lists for the request
and the response direction, as in the `headersToSpanAttributes` literal of
`register.js` (`requestHeaders`, `responseHeaders`). -/
structure DirectionConfig where
  requestHeaders : List String
  responseHeaders : List String
deriving DecidableEq

/-- The shape of the `headersToSpanAttributes` configuration literal of
`register.js`: one block per role. -/
structure PolicyConfig where
  client : DirectionConfig
  server : DirectionConfig
deriving DecidableEq

/-- All header names mentioned anywhere in a configuration. -/
def PolicyConfig.allNames (cfg : PolicyConfig) : List String :=
  cfg.server.requestHeaders ++ cfg.server.responseHeaders ++
    cfg.client.requestHeaders ++ cfg.client.responseHeaders

/-- Whether a character is a `tchar` of HTTP header field-name syntax
(RFC 7230): a letter, a digit, or one of the permitted specials.  The two
numeric cases are the apostrophe (39) and the backtick (96).  Control
characters and every other character are excluded. -/
def isTChar (c : Char) : Bool :=
  c.isAlpha || c.isDigit || "!#$%&*+-.^_|~".data.contains c ||
    c.toNat = 39 || c.toNat = 96

/-- Modelled from the spec: a configured header name is syntactically valid
when it is non-empty and every character is legal in an HTTP header field
name (in particular it contains no control characters). -/
def isValidHeaderName (s : String) : Bool :=
  !s.data.isEmpty && s.data.all isTChar

/-- Lower-casing of a name, character by character (HTTP header names are
ASCII, where `Char.toLower` is the case folding). -/
def lowerString (s : String) : String :=
  String.mk (s.data.map Char.toLower)

/-- Modelled from the spec: header-name normalization for attribute names —
lower-case the name and replace every dash by an underscore. -/
def normalizeHeaderName (s : String) : String :=
  String.mk ((lowerString s).data.map (fun c => if c = '-' then '_' else c))

/-- Modelled from the spec: the exact attribute-name derivation rule,
`http.<direction>.header.<normalized-name>`. -/
def attributeName (dir : Direction) (name : String) : String :=
  "http." ++ dir.str ++ ".header." ++ normalizeHeaderName name

/-- Modelled from the spec: the immutable policy — one ordered set of
header names per (role, direction) combination, stored in canonical
lower-case form. -/
structure HeaderPolicy where
  serverRequestHeaders : List String
  serverResponseHeaders : List String
  clientRequestHeaders : List String
  clientResponseHeaders : List String
deriving DecidableEq

/-- Modelled from the spec: `forRole(role, direction)` returns the
configured header-name set for that combination (empty when none was
configured, never an error). -/
def HeaderPolicy.forRole (P : HeaderPolicy) : Role → Direction → List String
  | .server, .request => P.serverRequestHeaders
  | .server, .response => P.serverResponseHeaders
  | .client, .request => P.clientRequestHeaders
  | .client, .response => P.clientResponseHeaders

/-- Modelled from the spec: the configuration error raised at
policy-construction time, carrying the offending header entry for the
diagnostic. -/
structure ConfigurationError where
  offendingHeader : String
deriving DecidableEq

/-- Modelled from the spec: canonicalization applied at construction —
lower-case every configured name and drop duplicates, so the policy holds
an ordered set of canonical lower-case names. -/
def canonicalize (names : List String) : List String :=
  (names.map lowerString).dedup

/-- Modelled from the spec: policy construction.  Fails with
`ConfigurationError` when some configured header name is syntactically
invalid; otherwise builds the immutable policy with every list
canonicalized to lower case. -/
def HeaderPolicy.make (cfg : PolicyConfig) : Except ConfigurationError HeaderPolicy :=
  match cfg.allNames.find? (fun n => !isValidHeaderName n) with
  | some bad => .error ⟨bad⟩
  | none =>
    .ok { serverRequestHeaders := canonicalize cfg.server.requestHeaders
          serverResponseHeaders := canonicalize cfg.server.responseHeaders
          clientRequestHeaders := canonicalize cfg.client.requestHeaders
          clientResponseHeaders := canonicalize cfg.client.responseHeaders }

/-- Modelled from the spec: the header collection of a message, an ordered
list of name/value occurrences exactly as present on the wire (names as
received, not pre-normalized; a repeated header appears several times). -/
abbrev Headers := List (String × String)

/-- Modelled from the spec: case-insensitive lookup — all values of the
occurrences of a header name in the collection, in wire order. -/
def headerValues (H : Headers) (n : String) : List String :=
  (H.filter (fun p => lowerString p.1 == lowerString n)).map Prod.snd

/-- Modelled from the spec: an attribute value is either a single string
(header present once, copied verbatim) or an ordered sequence of strings
(repeated header, all occurrences in wire order). -/
inductive AttrValue
  | single (v : String)
  | seq (vs : List String)
deriving DecidableEq

/-- Modelled from the spec: the per-header step of the extractor.  An
absent header is silently skipped; a unique occurrence becomes a
single-valued attribute with the value verbatim; a repeated header becomes
a sequence-valued attribute with all occurrences in wire order. -/
def captureHeader (dir : Direction) (H : Headers) (n : String) :
    Option (String × AttrValue) :=
  match headerValues H n with
  | [] => none
  | [v] => some (attributeName dir n, AttrValue.single v)
  | v :: vs => some (attributeName dir n, AttrValue.seq (v :: vs))

/-- Modelled from the spec: the AttributeExtractor — for every header name
configured in `forRole(role, direction)`, perform the case-insensitive
lookup and produce the attribute mapping.  Total: it never raises. -/
def extract (P : HeaderPolicy) (role : Role) (dir : Direction) (H : Headers) :
    List (String × AttrValue) :=
  (P.forRole role dir).filterMap (captureHeader dir H)

/-- The `headersToSpanAttributes` configuration literal embedded from
`custom-instro/nodejs/register.js`: every role and direction lists exactly
`X-Client-Id`. -/
def registerJsHeadersToSpanAttributes : PolicyConfig :=
  { client := { requestHeaders := ["X-Client-Id"], responseHeaders := ["X-Client-Id"] }
    server := { requestHeaders := ["X-Client-Id"], responseHeaders := ["X-Client-Id"] } }

/-- The policy obtained from the shipped `register.js` configuration. -/
def shippedPolicy : HeaderPolicy :=
  { serverRequestHeaders := ["x-client-id"]
    serverResponseHeaders := ["x-client-id"]
    clientRequestHeaders := ["x-client-id"]
    clientResponseHeaders := ["x-client-id"] }

/- Helper lemmas shared by the claim theorems. -/

theorem captureHeader_name {dir : Direction} {H : Headers} {n : String}
    {a : String × AttrValue} (h : captureHeader dir H n = some a) :
    a.1 = attributeName dir n := by
  unfold captureHeader at h
  split at h
  · exact absurd h (by simp)
  · cases Option.some.inj h; rfl
  · cases Option.some.inj h; rfl

theorem captureHeader_absent {dir : Direction} {H : Headers} {n : String}
    (h : headerValues H n = []) : captureHeader dir H n = none := by
  unfold captureHeader
  rw [h]

theorem captureHeader_single {dir : Direction} {H : Headers} {n v : String}
    (h : headerValues H n = [v]) :
    captureHeader dir H n = some (attributeName dir n, AttrValue.single v) := by
  unfold captureHeader
  rw [h]

theorem captureHeader_repeated {dir : Direction} {H : Headers} {n v w : String}
    {vs : List String} (h : headerValues H n = v :: w :: vs) :
    captureHeader dir H n = some (attributeName dir n, AttrValue.seq (v :: w :: vs)) := by
  unfold captureHeader
  rw [h]

theorem attributeName_inj {dir : Direction} {m n : String}
    (h : attributeName dir m = attributeName dir n) :
    normalizeHeaderName m = normalizeHeaderName n := by
  have hd := congrArg String.data h
  simp only [attributeName, String.data_append] at hd
  exact String.ext (List.append_cancel_left hd)

/- Fixed policies and header collections used to instantiate the theorems
on the concrete scenarios of the specification. -/

/-- Policy of the spec's tenant scenario: server requests capture only
`X-Tenant-Id` (canonical form `x-tenant-id`), nothing else anywhere. -/
def tenantPolicy : HeaderPolicy :=
  { serverRequestHeaders := ["x-tenant-id"]
    serverResponseHeaders := []
    clientRequestHeaders := []
    clientResponseHeaders := [] }

/-- Headers of the spec's tenant scenario. -/
def tenantHeaders : Headers := [("X-Tenant-Id", "acme"), ("X-Other", "ignored")]

/-- Policy of the spec's repeated-header scenario: client responses capture
only `Set-Cookie`. -/
def setCookiePolicy : HeaderPolicy :=
  { serverRequestHeaders := []
    serverResponseHeaders := []
    clientRequestHeaders := []
    clientResponseHeaders := ["set-cookie"] }

/-- Headers of the spec's repeated-header scenario: two `Set-Cookie`
occurrences in wire order. -/
def setCookieHeaders : Headers := [("Set-Cookie", "a=1"), ("Set-Cookie", "b=2")]

/-- C1: extraction is an allow-list — every attribute in the output of
`extract` takes its name from some header name configured in
`forRole(role, direction)`; headers of the message that the policy does
not list never appear in the output. -/
theorem extract_is_allowlist (P : HeaderPolicy) (role : Role) (dir : Direction)
    (H : Headers) (a : String × AttrValue) (ha : a ∈ extract P role dir H) :
    ∃ n, n ∈ P.forRole role dir ∧ a.1 = attributeName dir n := by
  rcases List.mem_filterMap.mp ha with ⟨n, hn, hc⟩
  exact ⟨n, hn, captureHeader_name hc⟩

/-- Witness for C1 on the spec's tenant scenario: the produced
`http.request.header.x_tenant_id` attribute is named after a configured
header, and the full output shows `X-Other` never appears. -/
theorem extract_is_allowlist_witness :
    (∃ n, n ∈ tenantPolicy.forRole Role.server Direction.request ∧
        ("http.request.header.x_tenant_id", AttrValue.single "acme").1 =
          attributeName Direction.request n) ∧
    extract tenantPolicy Role.server Direction.request tenantHeaders =
      [("http.request.header.x_tenant_id", AttrValue.single "acme")] :=
  ⟨extract_is_allowlist tenantPolicy Role.server Direction.request tenantHeaders
      ("http.request.header.x_tenant_id", AttrValue.single "acme") (by decide),
    by decide⟩

/-- C2: every captured header produces an attribute named exactly
`http.<direction>.header.<normalized-name>`, the normalized name being the
header name lower-cased with every dash replaced by an underscore; in
particular `X-Client-Id` on a response yields
`http.response.header.x_client_id` and `X-Request-ID` on a request yields
`http.request.header.x_request_id`. -/
theorem captured_attribute_name_rule :
    (∀ (dir : Direction) (H : Headers) (n : String) (a : String × AttrValue),
        captureHeader dir H n = some a →
          a.1 = "http." ++ dir.str ++ ".header." ++ normalizeHeaderName n) ∧
    attributeName Direction.response "X-Client-Id" = "http.response.header.x_client_id" ∧
    attributeName Direction.request "X-Request-ID" = "http.request.header.x_request_id" :=
  ⟨fun _ _ _ _ h => captureHeader_name h, by decide, by decide⟩

/-- Witness for C2: the rule applied to the concrete capture of
`X-Client-Id` on a server response. -/
theorem captured_attribute_name_rule_witness :
    ("http.response.header.x_client_id", AttrValue.single "roxy").1 =
      "http." ++ Direction.response.str ++ ".header." ++
        normalizeHeaderName "X-Client-Id" :=
  captured_attribute_name_rule.1 Direction.response [("X-Client-Id", "roxy")]
    "X-Client-Id" ("http.response.header.x_client_id", AttrValue.single "roxy")
    (by decide)

/-- C3: a header name configured in the policy that occurs more than once
in the collection yields a sequence-valued attribute holding all
occurrence values in wire order (`headerValues` is exactly that list). -/
theorem extract_repeated_header_seq (P : HeaderPolicy) (role : Role)
    (dir : Direction) (H : Headers) (n : String) (hn : n ∈ P.forRole role dir)
    (hk : 1 < (headerValues H n).length) :
    (attributeName dir n, AttrValue.seq (headerValues H n)) ∈
      extract P role dir H := by
  obtain ⟨v, w, vs, hv⟩ : ∃ v w vs, headerValues H n = v :: w :: vs := by
    match hval : headerValues H n with
    | [] => rw [hval] at hk; simp at hk
    | [v] => rw [hval] at hk; simp at hk
    | v :: w :: vs => exact ⟨v, w, vs, rfl⟩
  refine List.mem_filterMap.mpr ⟨n, hn, ?_⟩
  rw [hv]
  exact captureHeader_repeated hv

/-- Witness for C3 on the spec's `Set-Cookie` scenario: both cookie values
appear as one sequence-valued attribute, in wire order. -/
theorem extract_repeated_header_seq_witness :
    (attributeName Direction.response "set-cookie",
        AttrValue.seq (headerValues setCookieHeaders "set-cookie")) ∈
      extract setCookiePolicy Role.client Direction.response setCookieHeaders ∧
    headerValues setCookieHeaders "set-cookie" = ["a=1", "b=2"] ∧
    attributeName Direction.response "set-cookie" =
      "http.response.header.set_cookie" :=
  ⟨extract_repeated_header_seq setCookiePolicy Role.client Direction.response
      setCookieHeaders "set-cookie" (by decide) (by decide),
    by decide, by decide⟩

/-- C4: a header name configured in the policy that occurs exactly once in
the collection, with value `v`, yields its attribute with the value copied
verbatim, and the output holds exactly one attribute under that name.  The
configured names are required to have pairwise distinct normalized forms,
as they do in every policy whose names are an ordered set keyed by their
canonical form. -/
theorem extract_unique_header_verbatim (P : HeaderPolicy) (role : Role)
    (dir : Direction) (H : Headers) (n v : String)
    (hnodup : ((P.forRole role dir).map normalizeHeaderName).Nodup)
    (hn : n ∈ P.forRole role dir)
    (hv : headerValues H n = [v]) :
    (attributeName dir n, AttrValue.single v) ∈ extract P role dir H ∧
      (extract P role dir H).countP (fun a => a.1 == attributeName dir n) = 1 := by
  constructor
  · exact List.mem_filterMap.mpr ⟨n, hn, captureHeader_single hv⟩
  · unfold extract
    rw [List.countP_filterMap]
    have hcongr : ∀ m ∈ P.forRole role dir,
        (((captureHeader dir H m).map
            (fun a => a.1 == attributeName dir n)).getD false) = true ↔
          (m == n) = true := by
      intro m hm
      constructor
      · intro htrue
        rcases hcap : captureHeader dir H m with _ | a
        · rw [hcap] at htrue; simp at htrue
        · rw [hcap] at htrue
          simp only [Option.map_some', Option.getD_some, beq_iff_eq] at htrue
          have h1 : a.1 = attributeName dir m := captureHeader_name hcap
          have h2 : normalizeHeaderName m = normalizeHeaderName n :=
            attributeName_inj (h1 ▸ htrue)
          have := List.inj_on_of_nodup_map hnodup hm hn h2
          simp [this]
      · intro hmn
        have hmn' : m = n := by simpa using hmn
        subst hmn'
        rw [captureHeader_single hv]
        simp
    rw [List.countP_congr hcongr, ← List.count_eq_countP]
    exact List.count_eq_one_of_mem (List.Nodup.of_map _ hnodup) hn

/-- Witness for C4: the tenant scenario has `X-Tenant-Id` exactly once with
value `acme`; the output holds that value verbatim, exactly once. -/
theorem extract_unique_header_verbatim_witness :
    (attributeName Direction.request "x-tenant-id", AttrValue.single "acme") ∈
      extract tenantPolicy Role.server Direction.request tenantHeaders ∧
    (extract tenantPolicy Role.server Direction.request tenantHeaders).countP
      (fun a => a.1 == attributeName Direction.request "x-tenant-id") = 1 :=
  extract_unique_header_verbatim tenantPolicy Role.server Direction.request
    tenantHeaders "x-tenant-id" "acme" (by decide) (by decide) (by decide)

/-- C5: extraction is total — `extract` is a plain function into attribute
mappings, with no error outcome in its type — and a configured header name
absent from the collection is silently skipped: its capture step returns
`none`, a policy all of whose configured names are absent produces the
empty mapping, and no attribute named after the absent header appears in
the output. -/
theorem extract_total_absent_skipped :
    (∀ (dir : Direction) (H : Headers) (n : String),
        headerValues H n = [] → captureHeader dir H n = none) ∧
    (∀ (P : HeaderPolicy) (role : Role) (dir : Direction) (H : Headers),
        (∀ n ∈ P.forRole role dir, headerValues H n = []) →
          extract P role dir H = []) ∧
    (∀ (P : HeaderPolicy) (role : Role) (dir : Direction) (H : Headers)
        (n : String),
        ((P.forRole role dir).map normalizeHeaderName).Nodup →
          n ∈ P.forRole role dir → headerValues H n = [] →
          ∀ a ∈ extract P role dir H, a.1 ≠ attributeName dir n) := by
  refine ⟨fun _ _ _ h => captureHeader_absent h, ?_, ?_⟩
  · intro P role dir H habs
    unfold extract
    exact List.filterMap_eq_nil_iff.mpr fun n hn => captureHeader_absent (habs n hn)
  · intro P role dir H n hnodup hn habs a ha hname
    rcases List.mem_filterMap.mp ha with ⟨m, hm, hcap⟩
    have h1 : a.1 = attributeName dir m := captureHeader_name hcap
    have h2 : normalizeHeaderName m = normalizeHeaderName n :=
      attributeName_inj (h1 ▸ hname)
    have hmn : m = n := List.inj_on_of_nodup_map hnodup hm hn h2
    rw [hmn, captureHeader_absent habs] at hcap
    exact Option.noConfusion hcap

/-- Witness for C5: in the tenant scenario the configured name
`x-tenant-id` is absent from a collection carrying only `X-Other`; its
capture returns `none`, the whole extraction is empty, and no attribute of
that name appears. -/
theorem extract_total_absent_skipped_witness :
    captureHeader Direction.request [("X-Other", "ignored")] "x-tenant-id" = none ∧
    extract tenantPolicy Role.server Direction.request [("X-Other", "ignored")] = [] ∧
    ∀ a ∈ extract tenantPolicy Role.server Direction.request [("X-Other", "ignored")],
      a.1 ≠ attributeName Direction.request "x-tenant-id" :=
  ⟨extract_total_absent_skipped.1 Direction.request [("X-Other", "ignored")]
      "x-tenant-id" (by decide),
    extract_total_absent_skipped.2.1 tenantPolicy Role.server Direction.request
      [("X-Other", "ignored")] (by decide),
    extract_total_absent_skipped.2.2 tenantPolicy Role.server Direction.request
      [("X-Other", "ignored")] "x-tenant-id" (by decide) (by decide) (by decide)⟩

theorem charToLower_fixed : ∀ m : Nat, 97 ≤ m → m ≤ 122 →
    Char.toLower (Char.ofNat m) = Char.ofNat m := by
  intro m h1 h2
  interval_cases m <;> decide

theorem charToLower_idem (c : Char) :
    Char.toLower (Char.toLower c) = Char.toLower c := by
  by_cases h : 65 ≤ c.toNat ∧ c.toNat ≤ 90
  · have h1 : Char.toLower c = Char.ofNat (c.toNat + 32) := by
      unfold Char.toLower
      rw [if_pos ⟨h.1, h.2⟩]
    rw [h1]
    exact charToLower_fixed (c.toNat + 32) (by omega) (by omega)
  · have h1 : Char.toLower c = c := by
      unfold Char.toLower
      rw [if_neg h]
    rw [h1, h1]

theorem lowerString_idem (s : String) :
    lowerString (lowerString s) = lowerString s := by
  simp only [lowerString, List.map_map]
  exact congrArg String.mk (by simp [Function.comp_def, charToLower_idem])

theorem mem_canonicalize {names : List String} {n : String} :
    n ∈ canonicalize names ↔ ∃ m ∈ names, n = lowerString m := by
  simp [canonicalize, List.mem_dedup, List.mem_map, eq_comm]

/-- C6: matching is case-insensitive — an occurrence whose name agrees with
the looked-up name after lower-casing contributes its value; a configured
name that has at least one (case-insensitive) occurrence is captured into
the output; and a policy built by `HeaderPolicy.make` stores every
configured name in canonical lower-case form (each stored name is
lower-case-fixed and is the lower-casing of a configured name). -/
theorem header_matching_case_insensitive :
    (∀ (H : Headers) (n h v : String), (h, v) ∈ H →
        lowerString h = lowerString n → v ∈ headerValues H n) ∧
    (∀ (P : HeaderPolicy) (role : Role) (dir : Direction) (H : Headers)
        (n : String), n ∈ P.forRole role dir → headerValues H n ≠ [] →
        ∃ a, a ∈ extract P role dir H ∧ a.1 = attributeName dir n) ∧
    (∀ (cfg : PolicyConfig) (P : HeaderPolicy), HeaderPolicy.make cfg = .ok P →
        ∀ (role : Role) (dir : Direction), ∀ n ∈ P.forRole role dir,
          lowerString n = n ∧ ∃ m ∈ cfg.allNames, n = lowerString m) := by
  refine ⟨?_, ?_, ?_⟩
  · intro H n h v hmem hlow
    exact List.mem_map.mpr
      ⟨(h, v), List.mem_filter.mpr ⟨hmem, by simp [hlow]⟩, rfl⟩
  · intro P role dir H n hn hne
    match hval : headerValues H n with
    | [] => exact absurd hval hne
    | [v] =>
      exact ⟨(attributeName dir n, AttrValue.single v),
        List.mem_filterMap.mpr ⟨n, hn, captureHeader_single hval⟩, rfl⟩
    | v :: w :: vs =>
      exact ⟨(attributeName dir n, AttrValue.seq (v :: w :: vs)),
        List.mem_filterMap.mpr ⟨n, hn, captureHeader_repeated hval⟩, rfl⟩
  · intro cfg P h role dir n hn
    unfold HeaderPolicy.make at h
    split at h
    · exact absurd h (by simp)
    · cases Except.ok.inj h
      cases role <;> cases dir <;>
        · rcases mem_canonicalize.mp hn with ⟨m, hm, rfl⟩
          exact ⟨lowerString_idem m,
            ⟨m, by simp [PolicyConfig.allNames, hm], rfl⟩⟩

/-- Witness for C6: a header sent as `x-CLIENT-id` is matched by the
policy entry `X-Client-Id` of the shipped configuration (canonical form
`x-client-id`) and captured into the output. -/
theorem header_matching_case_insensitive_witness :
    "abc" ∈ headerValues [("x-CLIENT-id", "abc")] "x-client-id" ∧
    (∃ a, a ∈ extract shippedPolicy Role.server Direction.request
        [("x-CLIENT-id", "abc")] ∧
      a.1 = attributeName Direction.request "x-client-id") ∧
    (lowerString "x-client-id" = "x-client-id" ∧
      ∃ m ∈ registerJsHeadersToSpanAttributes.allNames,
        "x-client-id" = lowerString m) :=
  ⟨header_matching_case_insensitive.1 [("x-CLIENT-id", "abc")] "x-client-id"
      "x-CLIENT-id" "abc" (by decide) (by decide),
    header_matching_case_insensitive.2.1 shippedPolicy Role.server
      Direction.request [("x-CLIENT-id", "abc")] "x-client-id"
      (by decide) (by decide),
    header_matching_case_insensitive.2.2 registerJsHeadersToSpanAttributes
      shippedPolicy rfl Role.server Direction.request "x-client-id"
      (by decide)⟩

/-- C7: extraction is deterministic — identical inputs give identical
outputs; the function has no hidden state. -/
theorem extract_deterministic (P P' : HeaderPolicy) (role role' : Role)
    (dir dir' : Direction) (H H' : Headers) (hP : P = P') (hrole : role = role')
    (hdir : dir = dir') (hH : H = H') :
    extract P role dir H = extract P' role' dir' H' := by
  subst hP; subst hrole; subst hdir; subst hH
  rfl

/-- Witness for C7 at the shipped policy and a concrete collection. -/
theorem extract_deterministic_witness :
    extract shippedPolicy Role.server Direction.request
        [("X-Client-Id", "roxy")] =
      extract shippedPolicy Role.server Direction.request
        [("X-Client-Id", "roxy")] :=
  extract_deterministic shippedPolicy shippedPolicy Role.server Role.server
    Direction.request Direction.request [("X-Client-Id", "roxy")]
    [("X-Client-Id", "roxy")] rfl rfl rfl rfl

/-- A configuration whose only entry is the empty-string header name. -/
def emptyNameConfig : PolicyConfig :=
  { client := { requestHeaders := [""], responseHeaders := [] }
    server := { requestHeaders := [], responseHeaders := [] } }

/-- C8: policy construction fails with a `ConfigurationError` exactly when
some configured header name is syntactically invalid (empty, or containing
a character disallowed in HTTP header field names, control characters
included); in particular the empty-string name fails.  No policy is
produced on failure — the error is the whole outcome of construction. -/
theorem make_fails_iff_invalid_name :
    (∀ cfg : PolicyConfig,
        (∃ e, HeaderPolicy.make cfg = .error e) ↔
          ∃ n ∈ cfg.allNames, isValidHeaderName n = false) ∧
    (∃ e : ConfigurationError,
        HeaderPolicy.make emptyNameConfig = .error e) := by
  constructor
  · intro cfg
    constructor
    · rintro ⟨e, he⟩
      unfold HeaderPolicy.make at he
      split at he
      · next bad hbad =>
        refine ⟨bad, List.mem_of_find?_eq_some hbad, ?_⟩
        have := List.find?_some hbad
        simpa using this
      · exact absurd he (by simp)
    · rintro ⟨n, hn, hinv⟩
      unfold HeaderPolicy.make
      split
      · exact ⟨_, rfl⟩
      · next hnone =>
        have := List.find?_eq_none.mp hnone n hn
        simp [hinv] at this
  · exact ⟨⟨""⟩, rfl⟩

/-- Witness for C8: the emptiness of the name `""` makes construction of
`emptyNameConfig` fail, obtained through the characterization. -/
theorem make_fails_iff_invalid_name_witness :
    ∃ e, HeaderPolicy.make emptyNameConfig = Except.error e :=
  (make_fails_iff_invalid_name.1 emptyNameConfig).mpr
    ⟨"", by decide, by decide⟩

/-- Modelled from the spec: the case-insensitive lookup written as a
read-only traversal that threads the header collection through each step,
returning the collected occurrence values together with the collection as
it stands after the scan. -/
def scanHeader (key : String) : Headers → List String × Headers
  | [] => ([], [])
  | (h, v) :: rest =>
    match scanHeader key rest with
    | (vs, rest2) =>
      if lowerString h == lowerString key then (v :: vs, (h, v) :: rest2)
      else (vs, (h, v) :: rest2)

/-- Modelled from the spec: the extractor loop, threading the header
collection through every per-header lookup, as an imperative
implementation would carry its header store. -/
def extractLoop (dir : Direction) :
    List String → Headers → List (String × AttrValue) × Headers
  | [], H => ([], H)
  | n :: ns, H =>
    match scanHeader n H with
    | (vs, H1) =>
      match extractLoop dir ns H1 with
      | (attrs, H2) =>
        match vs with
        | [] => (attrs, H2)
        | [v] => ((attributeName dir n, AttrValue.single v) :: attrs, H2)
        | v :: w :: rest =>
          ((attributeName dir n, AttrValue.seq (v :: w :: rest)) :: attrs, H2)

/-- Modelled from the spec: the whole extraction call, threading the header
collection, so that the state of the headers after the call is visible in
the result. -/
def extractCall (P : HeaderPolicy) (role : Role) (dir : Direction)
    (H : Headers) : List (String × AttrValue) × Headers :=
  extractLoop dir (P.forRole role dir) H

theorem scanHeader_eq (key : String) (H : Headers) :
    scanHeader key H = (headerValues H key, H) := by
  induction H with
  | nil => rfl
  | cons p rest ih =>
    obtain ⟨h, v⟩ := p
    simp only [scanHeader, ih, headerValues, List.filter_cons]
    by_cases hc : (lowerString h == lowerString key) = true
    · simp [hc]
    · simp [headerValues, hc]

theorem extractLoop_eq (dir : Direction) (ns : List String) (H : Headers) :
    extractLoop dir ns H = (ns.filterMap (captureHeader dir H), H) := by
  induction ns with
  | nil => rfl
  | cons n ns ih =>
    simp only [extractLoop, scanHeader_eq, ih, List.filterMap_cons]
    unfold captureHeader
    match hval : headerValues H n with
    | [] => simp
    | [v] => simp
    | v :: w :: vs => simp

/-- C9: extraction is a pure function of (policy, role, direction,
headers) — the threaded-state embedding of the call returns exactly the
output of the pure `extract`, and the header collection after the call is
identical to the one supplied: nothing was mutated. -/
theorem extract_pure_no_mutation (P : HeaderPolicy) (role : Role)
    (dir : Direction) (H : Headers) :
    extractCall P role dir H = (extract P role dir H, H) :=
  extractLoop_eq dir (P.forRole role dir) H

/-- C10: in the shipped `register.js` configuration the policy lists
exactly `X-Client-Id` (canonical form `x-client-id`) for all four
(role, direction) combinations, the four `forRole` sets are equal, and
every attribute the shipped extractor can produce is the one derived from
`X-Client-Id`. -/
theorem shipped_policy_only_x_client_id :
    HeaderPolicy.make registerJsHeadersToSpanAttributes =
        Except.ok shippedPolicy ∧
    (∀ (role : Role) (dir : Direction),
        shippedPolicy.forRole role dir = ["x-client-id"]) ∧
    (∀ (role role' : Role) (dir dir' : Direction),
        shippedPolicy.forRole role dir = shippedPolicy.forRole role' dir') ∧
    (∀ (role : Role) (dir : Direction) (H : Headers) (a : String × AttrValue),
        a ∈ extract shippedPolicy role dir H →
          a.1 = attributeName dir "x-client-id") := by
  refine ⟨rfl, ?_, ?_, ?_⟩
  · intro role dir
    cases role <;> cases dir <;> rfl
  · intro role role' dir dir'
    cases role <;> cases role' <;> cases dir <;> cases dir' <;> rfl
  · intro role dir H a ha
    rcases List.mem_filterMap.mp ha with ⟨m, hm, hcap⟩
    have hmx : m = "x-client-id" := by
      cases role <;> cases dir <;> simpa [HeaderPolicy.forRole, shippedPolicy] using hm
    rw [hmx] at hcap
    exact captureHeader_name hcap

/-- Witness for C10: the attribute produced by the shipped policy on the
sample application's `X-Client-Id: roxy` response header is named after
`x-client-id`. -/
theorem shipped_policy_only_x_client_id_witness :
    ("http.response.header.x_client_id", AttrValue.single "roxy").1 =
      attributeName Direction.response "x-client-id" :=
  shipped_policy_only_x_client_id.2.2.2 Role.server Direction.response
    [("X-Client-Id", "roxy")]
    ("http.response.header.x_client_id", AttrValue.single "roxy") (by decide)

end HeaderAttr
